import Mathlib

/-!
Verification development for the delta-fork tiled raster reader and writer
(src/delta/imagery/sources/tiff.py).

The tiff module is embedded shallowly: coordinates are integers, Python
floor division is Int.fdiv, fallible operations return Except values whose
error constructors name the failure modes of the error taxonomy.  The
Rectangle class and the DeltaImage.read wrapper live in repository modules
that are not part of the provided sources, so those definitions are
modelled from the specification text and marked as such in their doc
comments; everything else is translated directly from tiff.py.
-/

/-- Axis-aligned integer rectangle with exclusive maxima.
Modelled from the spec: fields min_x, min_y, max_x, max_y (integers,
half-open: max exclusive). -/
structure Rectangle where
  min_x : Int
  min_y : Int
  max_x : Int
  max_y : Int
deriving DecidableEq, Repr

namespace Rectangle

/-- Construction from position and size, as the Python constructor called
with the width and height keywords: the maxima are min plus extent. -/
def ofSize (x y w h : Int) : Rectangle :=
  ⟨x, y, x + w, y + h⟩

/-- Width of the rectangle, max_x minus min_x. -/
def width (r : Rectangle) : Int := r.max_x - r.min_x

/-- Height of the rectangle, max_y minus min_y. -/
def height (r : Rectangle) : Int := r.max_y - r.min_y

/-- Modelled from the spec: containment holds iff the coordinate span of
other lies within the bounds of self on both axes; a degenerate other with
in-bounds coordinates is (trivially) contained despite having zero area. -/
def contains_rect (self other : Rectangle) : Bool :=
  decide (self.min_x ≤ other.min_x) && decide (self.min_y ≤ other.min_y) &&
  decide (other.max_x ≤ self.max_x) && decide (other.max_y ≤ self.max_y)

/-- Modelled from the spec: intersection is the componentwise max of the
minima and min of the maxima; the result may be empty and is not clamped. -/
def get_intersection (self other : Rectangle) : Rectangle :=
  ⟨max self.min_x other.min_x, max self.min_y other.min_y,
   min self.max_x other.max_x, min self.max_y other.max_y⟩

/-- The data-model invariant of the spec: minima do not exceed maxima. -/
def wf (r : Rectangle) : Prop := r.min_x ≤ r.max_x ∧ r.min_y ≤ r.max_y

instance decidableWf (r : Rectangle) : Decidable (wf r) :=
  inferInstanceAs (Decidable (r.min_x ≤ r.max_x ∧ r.min_y ≤ r.max_y))

theorem eq_of_components {r s : Rectangle} (h1 : r.min_x = s.min_x)
    (h2 : r.min_y = s.min_y) (h3 : r.max_x = s.max_x)
    (h4 : r.max_y = s.max_y) : r = s := by
  cases r
  cases s
  simp_all

theorem contains_rect_iff (self other : Rectangle) :
    contains_rect self other = true ↔
      self.min_x ≤ other.min_x ∧ self.min_y ≤ other.min_y ∧
      other.max_x ≤ self.max_x ∧ other.max_y ≤ self.max_y := by
  simp [contains_rect, and_assoc]

end Rectangle

/-- Error taxonomy for the image-side operations, one constructor per
failure mode named by the spec; each maps to one raise site of tiff.py. -/
inductive TiffError where
  /-- Raised by the open assertion after close. -/
  | closedSource
  /-- Raised by the aligner and the scheduler validation loop when a
  requested region is not contained in the image bounds. -/
  | regionOutOfBounds
  /-- Raised by the read wrapper when the read region is out of bounds. -/
  | outOfBounds
  /-- Raised inside the band read loop when the buffer spatial shape does
  not match the region. -/
  | bufferShape
  /-- Raised by indexing past the band map or the buffer band axis. -/
  | indexError
  /-- A backend read failure surfaced through a job future. -/
  | ioError
deriving DecidableEq, Repr

/-- The state of an opened TiffImage that the embedded operations consume:
pixel size, the native block size reported by block_info for band zero
(component zero is used along the x axis of the aligner, component one
along the y axis), the logical band count, and whether the handles are
still present (false after close). -/
structure TiffImage where
  width : Int
  height : Int
  block_size_x : Int
  block_size_y : Int
  num_bands : Nat
  isOpen : Bool
deriving DecidableEq, Repr

/-- Full image bounds rectangle, Rectangle(0, 0, width=width, height=height). -/
def imageBounds (img : TiffImage) : Rectangle :=
  Rectangle.ofSize 0 0 img.width img.height

/-- Python math.floor(a / b) on integers: flooring division. -/
def pyfloordiv (a b : Int) : Int := Int.fdiv a b

/-- The block-aligned expansion computed by get_block_aligned_read_roi
before the final intersection: start at the floor multiple of the block
size, extent a whole number of blocks per axis. -/
def blockAlignedRoi (img : TiffImage) (desired_roi : Rectangle) : Rectangle :=
  let start_block_x := pyfloordiv desired_roi.min_x img.block_size_x
  let start_block_y := pyfloordiv desired_roi.min_y img.block_size_y
  let stop_block_x := pyfloordiv (desired_roi.max_x - 1) img.block_size_x
  let stop_block_y := pyfloordiv (desired_roi.max_y - 1) img.block_size_y
  let start_x := start_block_x * img.block_size_x
  let start_y := start_block_y * img.block_size_y
  let w := (stop_block_x - start_block_x + 1) * img.block_size_x
  let h := (stop_block_y - start_block_y + 1) * img.block_size_y
  Rectangle.ofSize start_x start_y w h

/-- TiffImage.get_block_aligned_read_roi: assert the image is open, check
the desired region against the image bounds, then return the block aligned
expansion intersected with (restricted to) the image bounds. -/
def get_block_aligned_read_roi (img : TiffImage) (desired_roi : Rectangle) :
    Except TiffError Rectangle :=
  if img.isOpen then
    if (imageBounds img).contains_rect desired_roi then
      .ok ((blockAlignedRoi img desired_roi).get_intersection (imageBounds img))
    else .error .regionOutOfBounds
  else .error .closedSource

/-- The aligner formula as written in section 4.3 of the spec, stated over
the native block size pair (bh, bw); named separately from the source
translation so the refinement claim can compare the two. -/
def specAlignedFormula (bw bh : Int) (desired : Rectangle) : Rectangle :=
  let start_block_x := pyfloordiv desired.min_x bw
  let start_block_y := pyfloordiv desired.min_y bh
  let stop_block_x := pyfloordiv (desired.max_x - 1) bw
  let stop_block_y := pyfloordiv (desired.max_y - 1) bh
  Rectangle.ofSize (start_block_x * bw) (start_block_y * bh)
    ((stop_block_x - start_block_x + 1) * bw)
    ((stop_block_y - start_block_y + 1) * bh)

/-- A rectangle whose corners all sit on the block grid. -/
def isBlockAligned (bw bh : Int) (r : Rectangle) : Prop :=
  bw ∣ r.min_x ∧ bh ∣ r.min_y ∧ bw ∣ r.max_x ∧ bh ∣ r.max_y

/-- The largest block multiple at or below a coordinate. -/
theorem floor_mult_le (m b : Int) (hb : 0 < b) : pyfloordiv m b * b ≤ m := by
  rw [pyfloordiv, Int.fdiv_eq_ediv _ (le_of_lt hb)]
  exact Int.ediv_mul_le m (ne_of_gt hb)

theorem floor_mult_dvd (m b : Int) : b ∣ pyfloordiv m b * b :=
  dvd_mul_left b (pyfloordiv m b)

theorem floor_mult_of_dvd {m b : Int} (hb : 0 < b) (h : b ∣ m) :
    pyfloordiv m b * b = m := by
  obtain ⟨k, rfl⟩ := h
  rw [pyfloordiv, Int.fdiv_eq_ediv _ (le_of_lt hb), mul_comm b k,
    Int.mul_ediv_cancel _ (ne_of_gt hb)]

theorem floor_mult_greatest {c m b : Int} (hb : 0 < b) (hc : b ∣ c)
    (h : c ≤ m) : c ≤ pyfloordiv m b * b := by
  obtain ⟨k, rfl⟩ := hc
  rw [pyfloordiv, Int.fdiv_eq_ediv _ (le_of_lt hb)]
  have hk : k ≤ m / b := by
    rw [Int.le_ediv_iff_mul_le hb]
    calc k * b = b * k := mul_comm _ _
    _ ≤ m := h
  calc b * k = k * b := mul_comm _ _
  _ ≤ m / b * b := by
      exact mul_le_mul_of_nonneg_right hk (le_of_lt hb)

/-- The ceiling multiple computed by the stop-block formula. -/
def ceilMult (M b : Int) : Int := (pyfloordiv (M - 1) b + 1) * b

theorem le_ceilMult (M b : Int) (hb : 0 < b) : M ≤ ceilMult M b := by
  rw [ceilMult, pyfloordiv, Int.fdiv_eq_ediv _ (le_of_lt hb)]
  have := Int.lt_ediv_add_one_mul_self (M - 1) hb
  omega

theorem ceilMult_dvd (M b : Int) : b ∣ ceilMult M b :=
  dvd_mul_left b (pyfloordiv (M - 1) b + 1)

theorem ceilMult_of_dvd {M b : Int} (hb : 0 < b) (h : b ∣ M) :
    ceilMult M b = M := by
  obtain ⟨k, rfl⟩ := h
  rw [ceilMult, pyfloordiv, Int.fdiv_eq_ediv _ (le_of_lt hb)]
  have hbk : b * k - 1 = (b - 1) + (k - 1) * b := by ring
  have hsmall : (b - 1) / b = 0 :=
    Int.ediv_eq_zero_of_lt (by omega) (by omega)
  rw [hbk, Int.add_mul_ediv_right _ _ (ne_of_gt hb), hsmall]
  ring

theorem ceilMult_least {c M b : Int} (hb : 0 < b) (hc : b ∣ c)
    (h : M ≤ c) : ceilMult M b ≤ c := by
  obtain ⟨k, rfl⟩ := hc
  rw [mul_comm b k] at h ⊢
  rw [ceilMult, pyfloordiv, Int.fdiv_eq_ediv _ (le_of_lt hb)]
  have hk : (M - 1) / b < k := by
    rw [Int.ediv_lt_iff_lt_mul hb]
    omega
  exact mul_le_mul_of_nonneg_right (by omega) (le_of_lt hb)

/-- The maximum edge of the block aligned expansion is the ceiling multiple
of the desired maximum: start plus a whole number of blocks. -/
theorem blockAlignedRoi_max_x (img : TiffImage) (r : Rectangle) :
    (blockAlignedRoi img r).max_x = ceilMult r.max_x img.block_size_x := by
  simp only [blockAlignedRoi, Rectangle.ofSize, ceilMult]
  ring

theorem blockAlignedRoi_max_y (img : TiffImage) (r : Rectangle) :
    (blockAlignedRoi img r).max_y = ceilMult r.max_y img.block_size_y := by
  simp only [blockAlignedRoi, Rectangle.ofSize, ceilMult]
  ring

theorem blockAlignedRoi_min_x (img : TiffImage) (r : Rectangle) :
    (blockAlignedRoi img r).min_x = pyfloordiv r.min_x img.block_size_x * img.block_size_x :=
  rfl

theorem blockAlignedRoi_min_y (img : TiffImage) (r : Rectangle) :
    (blockAlignedRoi img r).min_y = pyfloordiv r.min_y img.block_size_y * img.block_size_y :=
  rfl

theorem specAlignedFormula_min_x (bw bh : Int) (r : Rectangle) :
    (specAlignedFormula bw bh r).min_x = pyfloordiv r.min_x bw * bw :=
  rfl

theorem specAlignedFormula_min_y (bw bh : Int) (r : Rectangle) :
    (specAlignedFormula bw bh r).min_y = pyfloordiv r.min_y bh * bh :=
  rfl

theorem specAlignedFormula_max_x (bw bh : Int) (r : Rectangle) :
    (specAlignedFormula bw bh r).max_x = ceilMult r.max_x bw := by
  simp only [specAlignedFormula, Rectangle.ofSize, ceilMult]
  ring

theorem specAlignedFormula_max_y (bw bh : Int) (r : Rectangle) :
    (specAlignedFormula bw bh r).max_y = ceilMult r.max_y bh := by
  simp only [specAlignedFormula, Rectangle.ofSize, ceilMult]
  ring

/-- The translated aligner expansion and the spec formula agree. -/
theorem blockAlignedRoi_eq_spec (img : TiffImage) (r : Rectangle) :
    blockAlignedRoi img r = specAlignedFormula img.block_size_x img.block_size_y r :=
  rfl

/-- C1: for every desired region contained in the image bounds the aligner
returns exactly the spec formula rectangle intersected with the image
bounds; the formula rectangle is block aligned, encloses the desired
region, and is the least such block-aligned enclosure, so the result is
the smallest block-aligned superset clipped to the image; for a region not
contained in the bounds the aligner fails with the region-out-of-bounds
error without producing a region. -/
theorem c1_block_aligned_read_roi (img : TiffImage) (roi : Rectangle)
    (hopen : img.isOpen = true)
    (hbx : 0 < img.block_size_x) (hby : 0 < img.block_size_y) :
    ((imageBounds img).contains_rect roi = true →
      get_block_aligned_read_roi img roi =
        .ok ((specAlignedFormula img.block_size_x img.block_size_y roi).get_intersection
              (imageBounds img)) ∧
      isBlockAligned img.block_size_x img.block_size_y
        (specAlignedFormula img.block_size_x img.block_size_y roi) ∧
      (specAlignedFormula img.block_size_x img.block_size_y roi).contains_rect roi = true ∧
      (∀ B : Rectangle, isBlockAligned img.block_size_x img.block_size_y B →
        B.contains_rect roi = true →
        B.contains_rect (specAlignedFormula img.block_size_x img.block_size_y roi) = true)) ∧
    ((imageBounds img).contains_rect roi = false →
      get_block_aligned_read_roi img roi = .error .regionOutOfBounds) := by
  constructor
  · intro hc
    refine ⟨?_, ?_, ?_, ?_⟩
    · simp [get_block_aligned_read_roi, hopen, hc, blockAlignedRoi_eq_spec]
    · exact ⟨floor_mult_dvd _ _, floor_mult_dvd _ _,
        specAlignedFormula_max_x img.block_size_x img.block_size_y roi ▸ ceilMult_dvd _ _,
        specAlignedFormula_max_y img.block_size_x img.block_size_y roi ▸ ceilMult_dvd _ _⟩
    · rw [Rectangle.contains_rect_iff, specAlignedFormula_max_x, specAlignedFormula_max_y,
        specAlignedFormula_min_x, specAlignedFormula_min_y]
      exact ⟨floor_mult_le _ _ hbx, floor_mult_le _ _ hby,
        le_ceilMult _ _ hbx, le_ceilMult _ _ hby⟩
    · intro B hB hBroi
      rw [Rectangle.contains_rect_iff] at hBroi ⊢
      rw [specAlignedFormula_max_x, specAlignedFormula_max_y,
        specAlignedFormula_min_x, specAlignedFormula_min_y]
      exact ⟨floor_mult_greatest hbx hB.1 hBroi.1,
        floor_mult_greatest hby hB.2.1 hBroi.2.1,
        ceilMult_least hbx hB.2.2.1 hBroi.2.2.1,
        ceilMult_least hby hB.2.2.2 hBroi.2.2.2⟩
  · intro hc
    simp [get_block_aligned_read_roi, hopen, hc]

/-- Witness for C1 at the concrete scenario of the spec: a 100 by 100
image with 32 by 32 blocks and the desired region from (0,0) to (50,50)
aligns to the region from (0,0) to (64,64). -/
theorem c1_block_aligned_read_roi_witness :
    (⟨100, 100, 32, 32, 1, true⟩ : TiffImage).isOpen = true ∧
    (0 : Int) < 32 ∧
    (imageBounds ⟨100, 100, 32, 32, 1, true⟩).contains_rect ⟨0, 0, 50, 50⟩ = true ∧
    get_block_aligned_read_roi ⟨100, 100, 32, 32, 1, true⟩ ⟨0, 0, 50, 50⟩ =
      .ok ⟨0, 0, 64, 64⟩ := by
  refine ⟨rfl, by decide, by decide, ?_⟩
  have h := ((c1_block_aligned_read_roi ⟨100, 100, 32, 32, 1, true⟩ ⟨0, 0, 50, 50⟩
    rfl (by decide) (by decide)).1 (by decide)).1
  rw [h]
  rfl

theorem axis_min_idem {a b : Int} (hb : 0 < b) (ha : b ∣ a) :
    max (pyfloordiv (max a 0) b * b) 0 = max a 0 := by
  rcases le_or_lt 0 a with h | h
  · rw [max_eq_left h, floor_mult_of_dvd hb ha, max_eq_left h]
  · rw [max_eq_right (le_of_lt h)]
    simp [pyfloordiv]

theorem axis_max_idem {c W b : Int} (hb : 0 < b) (hc : b ∣ c) :
    min (ceilMult (min c W) b) W = min c W := by
  rcases le_or_lt c W with h | h
  · rw [min_eq_left h, ceilMult_of_dvd hb hc, min_eq_left h]
  · rw [min_eq_right (le_of_lt h)]
    exact min_eq_right (le_ceilMult W b hb)

/-- C9: block alignment is idempotent. Whenever the aligner succeeds and
returns a clipped aligned region, running the aligner again on that region
succeeds and returns the very same region. -/
theorem c9_align_idempotent (img : TiffImage) (roi r : Rectangle)
    (hbx : 0 < img.block_size_x) (hby : 0 < img.block_size_y)
    (h : get_block_aligned_read_roi img roi = .ok r) :
    get_block_aligned_read_roi img r = .ok r := by
  unfold get_block_aligned_read_roi at h ⊢
  split at h
  case isTrue ho =>
    rw [if_pos ho]
    split at h
    case isTrue hc =>
      injection h with hr
      have hcr : (imageBounds img).contains_rect r = true := by
        rw [← hr]
        rw [Rectangle.contains_rect_iff]
        refine ⟨le_max_right _ _, le_max_right _ _, min_le_right _ _, min_le_right _ _⟩
      rw [if_pos hcr]
      have hx : (blockAlignedRoi img r).get_intersection (imageBounds img) = r := by
        have hXminx : r.min_x =
            max (pyfloordiv roi.min_x img.block_size_x * img.block_size_x) 0 := by
          rw [← hr]
          rfl
        have hXminy : r.min_y =
            max (pyfloordiv roi.min_y img.block_size_y * img.block_size_y) 0 := by
          rw [← hr]
          rfl
        have hXmaxx : r.max_x =
            min (ceilMult roi.max_x img.block_size_x) (imageBounds img).max_x := by
          rw [← hr]
          show min (blockAlignedRoi img roi).max_x (imageBounds img).max_x = _
          rw [blockAlignedRoi_max_x]
        have hXmaxy : r.max_y =
            min (ceilMult roi.max_y img.block_size_y) (imageBounds img).max_y := by
          rw [← hr]
          show min (blockAlignedRoi img roi).max_y (imageBounds img).max_y = _
          rw [blockAlignedRoi_max_y]
        apply Rectangle.eq_of_components
        · show max (blockAlignedRoi img r).min_x 0 = r.min_x
          rw [blockAlignedRoi_min_x, hXminx]
          exact axis_min_idem hbx (floor_mult_dvd _ _)
        · show max (blockAlignedRoi img r).min_y 0 = r.min_y
          rw [blockAlignedRoi_min_y, hXminy]
          exact axis_min_idem hby (floor_mult_dvd _ _)
        · show min (blockAlignedRoi img r).max_x (imageBounds img).max_x = r.max_x
          rw [blockAlignedRoi_max_x, hXmaxx]
          exact axis_max_idem hbx (ceilMult_dvd _ _)
        · show min (blockAlignedRoi img r).max_y (imageBounds img).max_y = r.max_y
          rw [blockAlignedRoi_max_y, hXmaxy]
          exact axis_max_idem hby (ceilMult_dvd _ _)
      rw [hx]
    case isFalse hc => simp at h
  case isFalse ho => simp at h

/-- Witness for C9: aligning the region from (0,0) to (50,50) of a 100 by
100 image with 32 by 32 blocks gives the region up to (64,64); aligning
that result again returns it unchanged. -/
theorem c9_align_idempotent_witness :
    get_block_aligned_read_roi ⟨100, 100, 32, 32, 1, true⟩ ⟨0, 0, 50, 50⟩ =
      .ok ⟨0, 0, 64, 64⟩ ∧
    get_block_aligned_read_roi ⟨100, 100, 32, 32, 1, true⟩ ⟨0, 0, 64, 64⟩ =
      .ok ⟨0, 0, 64, 64⟩ :=
  ⟨rfl, c9_align_idempotent ⟨100, 100, 32, 32, 1, true⟩ ⟨0, 0, 50, 50⟩ ⟨0, 0, 64, 64⟩
    (by decide) (by decide) rfl⟩

/-- One callback invocation recorded by the scheduler: the sub region, the
aligned read region whose buffer is sliced, the slice offsets inside that
buffer, and the spatial shape of the resulting numpy slice. -/
structure CallbackEvent where
  roi : Rectangle
  read_roi : Rectangle
  x0 : Int
  y0 : Int
  shape0 : Int
  shape1 : Int
deriving DecidableEq, Repr

/-- Length of the Python slice start..stop along an axis of the given
length: numpy basic slicing with step one wraps negative endpoints by the
axis length, clamps both endpoints into the axis, and never yields a
negative length. -/
def sliceLen (len start stop : Int) : Int :=
  max ((if stop < 0 then max (len + stop) 0 else min stop len) -
       (if start < 0 then max (len + start) 0 else min start len)) 0

/-- The callback loop body of process_rois for one read group: each sub
region is delivered with the buffer slice starting at its offset from the
aligned region and extending by its own width and height. -/
def deliverGroup (read_roi : Rectangle) (rois : List Rectangle) : List CallbackEvent :=
  rois.map (fun roi =>
    { roi := roi
      read_roi := read_roi
      x0 := roi.min_x - read_roi.min_x
      y0 := roi.min_y - read_roi.min_y
      shape0 := sliceLen read_roi.width (roi.min_x - read_roi.min_x)
        (roi.min_x - read_roi.min_x + roi.width)
      shape1 := sliceLen read_roi.height (roi.min_y - read_roi.min_y)
        (roi.min_y - read_roi.min_y + roi.height) })

/-- The grouping loop of process_rois: take the first remaining region,
align it, and move every remaining region contained in the aligned read
into that group, keeping the rest; fuel bounds the number of loop turns
(one list head is consumed per turn once the aligner accepts it, so the
initial list length is always enough fuel in the validated runs). -/
def groupRoisF (img : TiffImage) : Nat → List Rectangle →
    Option (List (Rectangle × List Rectangle))
  | _, [] => some []
  | 0, _ :: _ => none
  | fuel + 1, r :: rest =>
    match get_block_aligned_read_roi img r with
    | .error _ => none
    | .ok read_roi =>
      match groupRoisF img fuel
          ((r :: rest).filter (fun x => ! read_roi.contains_rect x)) with
      | none => none
      | some gs =>
        some ((read_roi, (r :: rest).filter (fun x => read_roi.contains_rect x)) :: gs)

/-- All callback events of a job list, groups in submission order. -/
def eventsOf : List (Rectangle × List Rectangle) → List CallbackEvent
  | [] => []
  | g :: rest => deliverGroup g.1 g.2 ++ eventsOf rest

/-- Observable outcome of one process_rois run: the aligned regions whose
reads were performed, the callback events delivered in order, and the
error surfaced to the caller if any. -/
structure RunResult where
  reads : List Rectangle
  events : List CallbackEvent
  error : Option TiffError
deriving DecidableEq, Repr

/-- The consumption loop of process_rois: jobs are awaited strictly in
submission order on the single worker; a successful read delivers the
whole group before the next job is awaited, a failed read surfaces the
backend error at once, so later groups are neither read nor delivered. -/
def runJobs (readOk : Rectangle → Bool) : List (Rectangle × List Rectangle) → RunResult
  | [] => ⟨[], [], none⟩
  | (read_roi, rois) :: rest =>
    if readOk read_roi then
      let res := runJobs readOk rest
      ⟨read_roi :: res.reads, deliverGroup read_roi rois ++ res.events, res.error⟩
    else ⟨[read_roi], [], some .ioError⟩

/-- TiffImage.process_rois: assert the image is open, validate every
requested region against the image bounds before any job is created, then
group the regions by aligned reads and replay the groups in submission
order.  The read outcome oracle readOk stands for the backend: it says
which aligned reads succeed. -/
def process_rois (img : TiffImage) (readOk : Rectangle → Bool)
    (requested_rois : List Rectangle) : RunResult :=
  if img.isOpen then
    if requested_rois.all (fun roi => (imageBounds img).contains_rect roi) then
      match groupRoisF img requested_rois.length requested_rois with
      | some jobs => runJobs readOk jobs
      | none => ⟨[], [], some .ioError⟩
    else ⟨[], [], some .regionOutOfBounds⟩
  else ⟨[], [], some .closedSource⟩

/-- Concatenation of the sub-region groups of a job list. -/
def groupedRois : List (Rectangle × List Rectangle) → List Rectangle
  | [] => []
  | g :: rest => g.2 ++ groupedRois rest

theorem align_ok_of_contained (img : TiffImage) (roi : Rectangle)
    (ho : img.isOpen = true)
    (hc : (imageBounds img).contains_rect roi = true) :
    get_block_aligned_read_roi img roi =
      .ok ((blockAlignedRoi img roi).get_intersection (imageBounds img)) := by
  simp [get_block_aligned_read_roi, ho, hc]

/-- The clipped aligned read region contains the in-bounds region it was
computed from. -/
theorem aligned_read_contains (img : TiffImage) (roi : Rectangle)
    (hbx : 0 < img.block_size_x) (hby : 0 < img.block_size_y)
    (hc : (imageBounds img).contains_rect roi = true) :
    ((blockAlignedRoi img roi).get_intersection (imageBounds img)).contains_rect roi
      = true := by
  rw [Rectangle.contains_rect_iff] at hc ⊢
  obtain ⟨h1, h2, h3, h4⟩ := hc
  refine ⟨?_, ?_, ?_, ?_⟩
  · show max (blockAlignedRoi img roi).min_x (imageBounds img).min_x ≤ roi.min_x
    exact max_le (by rw [blockAlignedRoi_min_x]; exact floor_mult_le _ _ hbx) h1
  · show max (blockAlignedRoi img roi).min_y (imageBounds img).min_y ≤ roi.min_y
    exact max_le (by rw [blockAlignedRoi_min_y]; exact floor_mult_le _ _ hby) h2
  · show roi.max_x ≤ min (blockAlignedRoi img roi).max_x (imageBounds img).max_x
    exact le_min (by rw [blockAlignedRoi_max_x]; exact le_ceilMult _ _ hbx) h3
  · show roi.max_y ≤ min (blockAlignedRoi img roi).max_y (imageBounds img).max_y
    exact le_min (by rw [blockAlignedRoi_max_y]; exact le_ceilMult _ _ hby) h4

/-- The grouping loop succeeds with the list length as fuel on validated
input, the groups partition the input regions, and every grouped region is
contained in the read region of its group. -/
theorem groupRoisF_sound (img : TiffImage) (hbx : 0 < img.block_size_x)
    (hby : 0 < img.block_size_y) (ho : img.isOpen = true) :
    ∀ (fuel : Nat) (rois : List Rectangle),
      (∀ r ∈ rois, (imageBounds img).contains_rect r = true) →
      rois.length ≤ fuel →
      ∃ gs, groupRoisF img fuel rois = some gs ∧
        List.Perm (groupedRois gs) rois ∧
        ∀ g ∈ gs, ∀ r ∈ g.2, g.1.contains_rect r = true := by
  intro fuel
  induction fuel with
  | zero =>
    intro rois hin hlen
    have hnil : rois = [] := List.eq_nil_of_length_eq_zero (Nat.le_zero.mp hlen)
    subst hnil
    exact ⟨[], rfl, List.Perm.refl _, by simp⟩
  | succ n ih =>
    intro rois hin hlen
    match rois with
    | [] => exact ⟨[], rfl, List.Perm.refl _, by simp⟩
    | r :: rest =>
      have hr := hin r (by simp)
      have halign := align_ok_of_contained img r ho hr
      have hcr := aligned_read_contains img r hbx hby hr
      have hrem : ((r :: rest).filter
          (fun x => ! ((blockAlignedRoi img r).get_intersection
            (imageBounds img)).contains_rect x)) =
          rest.filter (fun x => ! ((blockAlignedRoi img r).get_intersection
            (imageBounds img)).contains_rect x) := by
        simp [List.filter_cons, hcr]
      have hlen2 : (rest.filter
          (fun x => ! ((blockAlignedRoi img r).get_intersection
            (imageBounds img)).contains_rect x)).length ≤ n := by
        have := List.length_filter_le
          (fun x => ! ((blockAlignedRoi img r).get_intersection
            (imageBounds img)).contains_rect x) rest
        simp at hlen
        omega
      have hin2 : ∀ x ∈ rest.filter
          (fun x => ! ((blockAlignedRoi img r).get_intersection
            (imageBounds img)).contains_rect x),
          (imageBounds img).contains_rect x = true :=
        fun x hx => hin x (List.mem_cons_of_mem _ (List.mem_of_mem_filter hx))
      obtain ⟨gs, hgs, hperm, hgood⟩ := ih _ hin2 hlen2
      refine ⟨((blockAlignedRoi img r).get_intersection (imageBounds img),
        (r :: rest).filter
          (fun x => ((blockAlignedRoi img r).get_intersection
            (imageBounds img)).contains_rect x)) :: gs, ?_, ?_, ?_⟩
      · simp only [groupRoisF, halign, hrem, hgs]
      · have p1 : List.Perm (groupedRois gs)
            ((r :: rest).filter (fun x => ! ((blockAlignedRoi img r).get_intersection
              (imageBounds img)).contains_rect x)) := by
          rw [hrem]
          exact hperm
        have p2 := List.Perm.append_left
          ((r :: rest).filter (fun x => ((blockAlignedRoi img r).get_intersection
            (imageBounds img)).contains_rect x)) p1
        exact p2.trans (List.filter_append_perm _ (r :: rest))
      · intro g hg r2 hr2
        rcases List.mem_cons.mp hg with hg1 | hg2
        · subst hg1
          exact (List.mem_filter.mp hr2).2
        · exact hgood g hg2 r2 hr2

theorem sliceLen_exact {len s e : Int} (h0 : 0 ≤ s) (hse : s ≤ e)
    (hel : e ≤ len) : sliceLen len s e = e - s := by
  unfold sliceLen
  split_ifs <;> omega

/-- When a group read region contains a well-formed sub region, the numpy
slice taken by the callback loop has exactly the width and height of the
sub region. -/
theorem event_shape_exact {rr r : Rectangle} (hcont : rr.contains_rect r = true)
    (hwf : r.wf) :
    sliceLen rr.width (r.min_x - rr.min_x) (r.min_x - rr.min_x + r.width) = r.width ∧
    sliceLen rr.height (r.min_y - rr.min_y) (r.min_y - rr.min_y + r.height)
      = r.height := by
  rw [Rectangle.contains_rect_iff] at hcont
  obtain ⟨hwf1, hwf2⟩ := hwf
  constructor
  · rw [sliceLen_exact (by omega) (by simp [Rectangle.width]; omega)
      (by simp [Rectangle.width]; omega)]
    omega
  · rw [sliceLen_exact (by omega) (by simp [Rectangle.height]; omega)
      (by simp [Rectangle.height]; omega)]
    omega

theorem deliverGroup_map_roi (rr : Rectangle) (rois : List Rectangle) :
    (deliverGroup rr rois).map CallbackEvent.roi = rois := by
  induction rois with
  | nil => rfl
  | cons a l ih =>
    show CallbackEvent.roi _ :: (deliverGroup rr l).map CallbackEvent.roi = a :: l
    rw [ih]

theorem mem_deliverGroup {rr : Rectangle} {rois : List Rectangle}
    {e : CallbackEvent} (he : e ∈ deliverGroup rr rois) :
    ∃ r ∈ rois, e =
      { roi := r
        read_roi := rr
        x0 := r.min_x - rr.min_x
        y0 := r.min_y - rr.min_y
        shape0 := sliceLen rr.width (r.min_x - rr.min_x) (r.min_x - rr.min_x + r.width)
        shape1 := sliceLen rr.height (r.min_y - rr.min_y)
          (r.min_y - rr.min_y + r.height) } := by
  simp only [deliverGroup, List.mem_map] at he
  obtain ⟨r, hr, hre⟩ := he
  exact ⟨r, hr, hre.symm⟩

theorem runJobs_all_ok (readOk : Rectangle → Bool) :
    ∀ gs : List (Rectangle × List Rectangle),
      (∀ g ∈ gs, readOk g.1 = true) →
      runJobs readOk gs = ⟨gs.map Prod.fst, eventsOf gs, none⟩ := by
  intro gs
  induction gs with
  | nil => intro _; rfl
  | cons g rest ih =>
    intro h
    obtain ⟨rr, rois⟩ := g
    have hg : readOk rr = true := h (rr, rois) (by simp)
    have hrest := ih (fun g2 hg2 => h g2 (by simp [hg2]))
    simp [runJobs, hg, hrest, eventsOf]

theorem mem_eventsOf {gs : List (Rectangle × List Rectangle)} {e : CallbackEvent}
    (he : e ∈ eventsOf gs) : ∃ g ∈ gs, e ∈ deliverGroup g.1 g.2 := by
  induction gs with
  | nil => simp [eventsOf] at he
  | cons g rest ih =>
    rcases List.mem_append.mp he with h1 | h2
    · exact ⟨g, by simp, h1⟩
    · obtain ⟨g2, hg2, hmem⟩ := ih h2
      exact ⟨g2, by simp [hg2], hmem⟩

theorem eventsOf_map_roi (gs : List (Rectangle × List Rectangle)) :
    (eventsOf gs).map CallbackEvent.roi = groupedRois gs := by
  induction gs with
  | nil => rfl
  | cons g rest ih => simp [eventsOf, groupedRois, deliverGroup_map_roi, ih]

theorem mem_groupedRois {gs : List (Rectangle × List Rectangle)}
    {g : Rectangle × List Rectangle} {r : Rectangle}
    (hg : g ∈ gs) (hr : r ∈ g.2) : r ∈ groupedRois gs := by
  induction gs with
  | nil => simp at hg
  | cons g2 rest ih =>
    rcases List.mem_cons.mp hg with h1 | h2
    · subst h1
      exact List.mem_append.mpr (Or.inl hr)
    · exact List.mem_append.mpr (Or.inr (ih h2))

/-- C2: when every requested region is inside the image bounds (and well
formed per the rectangle invariant) and the backend reads succeed, the
scheduler reports no error, delivers exactly one callback per input region
(the delivered regions are a permutation of the request list), and each
callback receives the slice of its group buffer at offset sub region min
minus aligned region min whose spatial shape equals the width and height
of that region exactly. -/
theorem c2_process_rois_delivery (img : TiffImage) (readOk : Rectangle → Bool)
    (rois : List Rectangle) (ho : img.isOpen = true)
    (hbx : 0 < img.block_size_x) (hby : 0 < img.block_size_y)
    (hin : ∀ r ∈ rois, (imageBounds img).contains_rect r = true)
    (hwf : ∀ r ∈ rois, r.wf)
    (hread : ∀ rr, readOk rr = true) :
    (process_rois img readOk rois).error = none ∧
    List.Perm ((process_rois img readOk rois).events.map CallbackEvent.roi) rois ∧
    ∀ e ∈ (process_rois img readOk rois).events,
      e.x0 = e.roi.min_x - e.read_roi.min_x ∧
      e.y0 = e.roi.min_y - e.read_roi.min_y ∧
      e.shape0 = e.roi.width ∧ e.shape1 = e.roi.height := by
  obtain ⟨gs, hgs, hperm, hgood⟩ :=
    groupRoisF_sound img hbx hby ho rois.length rois hin le_rfl
  have hall : rois.all (fun roi => (imageBounds img).contains_rect roi) = true := by
    rw [List.all_eq_true]
    exact hin
  have hpr : process_rois img readOk rois = ⟨gs.map Prod.fst, eventsOf gs, none⟩ := by
    rw [process_rois, if_pos ho, if_pos hall, hgs]
    exact runJobs_all_ok readOk gs (fun g _ => hread g.1)
  rw [hpr]
  refine ⟨rfl, ?_, ?_⟩
  · show List.Perm ((eventsOf gs).map CallbackEvent.roi) rois
    rw [eventsOf_map_roi]
    exact hperm
  · intro e he
    obtain ⟨g, hgmem, hedel⟩ := mem_eventsOf he
    obtain ⟨r, hrmem, hev⟩ := mem_deliverGroup hedel
    subst hev
    have hcont : g.1.contains_rect r = true := hgood g hgmem r hrmem
    have hwfr : r.wf := hwf r (hperm.mem_iff.mp (mem_groupedRois hgmem hrmem))
    obtain ⟨hsx, hsy⟩ := event_shape_exact hcont hwfr
    exact ⟨rfl, rfl, hsx, hsy⟩

/-- Witness for C2 at the concrete scenario of the spec: a 100 by 100
image with 32 by 32 blocks and the two requested regions (0,0)-(50,50)
and (60,60)-(100,100); all reads succeed. -/
theorem c2_process_rois_delivery_witness :
    (∀ r ∈ ([⟨0, 0, 50, 50⟩, ⟨60, 60, 100, 100⟩] : List Rectangle),
      (imageBounds ⟨100, 100, 32, 32, 1, true⟩).contains_rect r = true) ∧
    ((process_rois ⟨100, 100, 32, 32, 1, true⟩ (fun _ => true)
        [⟨0, 0, 50, 50⟩, ⟨60, 60, 100, 100⟩]).error = none ∧
      List.Perm ((process_rois ⟨100, 100, 32, 32, 1, true⟩ (fun _ => true)
        [⟨0, 0, 50, 50⟩, ⟨60, 60, 100, 100⟩]).events.map CallbackEvent.roi)
        [⟨0, 0, 50, 50⟩, ⟨60, 60, 100, 100⟩] ∧
      ∀ e ∈ (process_rois ⟨100, 100, 32, 32, 1, true⟩ (fun _ => true)
          [⟨0, 0, 50, 50⟩, ⟨60, 60, 100, 100⟩]).events,
        e.x0 = e.roi.min_x - e.read_roi.min_x ∧
        e.y0 = e.roi.min_y - e.read_roi.min_y ∧
        e.shape0 = e.roi.width ∧ e.shape1 = e.roi.height) :=
  ⟨by decide,
    c2_process_rois_delivery ⟨100, 100, 32, 32, 1, true⟩ (fun _ => true)
      [⟨0, 0, 50, 50⟩, ⟨60, 60, 100, 100⟩] rfl (by decide) (by decide)
      (by decide) (by decide) (fun _ => rfl)⟩

/-- C5: if any requested region is not contained in the image bounds, the
scheduler fails with the region-out-of-bounds error before any read is
issued and before any callback is invoked: the run performs no reads and
delivers no events. -/
theorem c5_fail_fast (img : TiffImage) (readOk : Rectangle → Bool)
    (rois : List Rectangle) (ho : img.isOpen = true)
    (hbad : ∃ r ∈ rois, (imageBounds img).contains_rect r = false) :
    process_rois img readOk rois = ⟨[], [], some .regionOutOfBounds⟩ := by
  obtain ⟨r, hr, hrf⟩ := hbad
  have hall : rois.all (fun roi => (imageBounds img).contains_rect roi) = false := by
    cases hv : rois.all (fun roi => (imageBounds img).contains_rect roi) with
    | false => rfl
    | true =>
      have := List.all_eq_true.mp hv r hr
      rw [hrf] at this
      exact absurd this (by simp)
  rw [process_rois, if_pos ho, if_neg (by simp [hall])]

/-- Witness for C5: requesting a region whose max_x exceeds the image
width fails with the region-out-of-bounds error and an empty run. -/
theorem c5_fail_fast_witness :
    (∃ r ∈ ([⟨0, 0, 50, 50⟩, ⟨90, 0, 120, 10⟩] : List Rectangle),
      (imageBounds ⟨100, 100, 32, 32, 1, true⟩).contains_rect r = false) ∧
    process_rois ⟨100, 100, 32, 32, 1, true⟩ (fun _ => true)
      [⟨0, 0, 50, 50⟩, ⟨90, 0, 120, 10⟩] = ⟨[], [], some .regionOutOfBounds⟩ :=
  ⟨⟨⟨90, 0, 120, 10⟩, by decide, by decide⟩,
    c5_fail_fast ⟨100, 100, 32, 32, 1, true⟩ (fun _ => true)
      [⟨0, 0, 50, 50⟩, ⟨90, 0, 120, 10⟩] rfl
      ⟨⟨90, 0, 120, 10⟩, by decide, by decide⟩⟩

theorem runJobs_first_fail (readOk : Rectangle → Bool) :
    ∀ (pre : List (Rectangle × List Rectangle)) (gfail : Rectangle × List Rectangle)
      (post : List (Rectangle × List Rectangle)),
      (∀ g ∈ pre, readOk g.1 = true) → readOk gfail.1 = false →
      runJobs readOk (pre ++ gfail :: post) =
        ⟨(pre ++ [gfail]).map Prod.fst, eventsOf pre, some .ioError⟩ := by
  intro pre
  induction pre with
  | nil =>
    intro gfail post _ hfail
    obtain ⟨rr, rois⟩ := gfail
    simp only [List.nil_append, List.map_cons, List.map_nil]
    rw [runJobs, if_neg (by simp [hfail])]
    rfl
  | cons g rest ih =>
    intro gfail post hpre hfail
    obtain ⟨rr, rois⟩ := g
    have hg : readOk rr = true := hpre (rr, rois) (by simp)
    have hrest := ih gfail post (fun g2 hg2 => hpre g2 (by simp [hg2])) hfail
    simp only [List.cons_append]
    rw [runJobs, if_pos hg, hrest]
    simp [eventsOf]

/-- C6: when the read of one group fails, the scheduler consumes reads
only up to and including the failing one, delivers in full exactly the
callbacks of the groups before it (nothing partial from the failing group,
nothing rolled back from the earlier groups), and surfaces the backend
error to the caller. -/
theorem c6_read_failure (img : TiffImage) (readOk : Rectangle → Bool)
    (rois : List Rectangle) (pre : List (Rectangle × List Rectangle))
    (gfail : Rectangle × List Rectangle) (post : List (Rectangle × List Rectangle))
    (ho : img.isOpen = true)
    (hin : ∀ r ∈ rois, (imageBounds img).contains_rect r = true)
    (hgs : groupRoisF img rois.length rois = some (pre ++ gfail :: post))
    (hpre : ∀ g ∈ pre, readOk g.1 = true)
    (hfail : readOk gfail.1 = false) :
    process_rois img readOk rois =
      ⟨(pre ++ [gfail]).map Prod.fst, eventsOf pre, some .ioError⟩ := by
  have hall : rois.all (fun roi => (imageBounds img).contains_rect roi) = true := by
    rw [List.all_eq_true]
    exact hin
  rw [process_rois, if_pos ho, if_pos hall, hgs]
  exact runJobs_first_fail readOk pre gfail post hpre hfail

/-- Witness for C6: two disjoint far-apart regions give two read groups;
the read of the second group fails, so only the first group is delivered,
both reads up to the failure are consumed, and the error surfaces. -/
theorem c6_read_failure_witness :
    groupRoisF ⟨100, 100, 32, 32, 1, true⟩ 2 [⟨0, 0, 10, 10⟩, ⟨40, 40, 50, 50⟩] =
      some [(⟨0, 0, 32, 32⟩, [⟨0, 0, 10, 10⟩]), (⟨32, 32, 64, 64⟩, [⟨40, 40, 50, 50⟩])] ∧
    (fun rr : Rectangle => rr.min_x == 0) ⟨32, 32, 64, 64⟩ = false ∧
    process_rois ⟨100, 100, 32, 32, 1, true⟩ (fun rr => rr.min_x == 0)
      [⟨0, 0, 10, 10⟩, ⟨40, 40, 50, 50⟩] =
      ⟨[⟨0, 0, 32, 32⟩, ⟨32, 32, 64, 64⟩],
        eventsOf [(⟨0, 0, 32, 32⟩, [⟨0, 0, 10, 10⟩])], some .ioError⟩ :=
  ⟨by decide, by decide,
    c6_read_failure ⟨100, 100, 32, 32, 1, true⟩ (fun rr => rr.min_x == 0)
      [⟨0, 0, 10, 10⟩, ⟨40, 40, 50, 50⟩]
      [(⟨0, 0, 32, 32⟩, [⟨0, 0, 10, 10⟩])] (⟨32, 32, 64, 64⟩, [⟨40, 40, 50, 50⟩]) []
      rfl (by decide) (by decide) (by decide) (by decide)⟩

/-- Mutable state of the grouping loop of process_rois, with the caller
supplied requested list and the working list as distinct components: the
loop starts from block_rois = copy.copy(requested_rois) and pops only from
that copy while appending submitted jobs. -/
structure SchedulerState where
  requested_rois : List Rectangle
  block_rois : List Rectangle
  jobs : List (Rectangle × List Rectangle)
deriving DecidableEq, Repr

/-- Loop entry state: block_rois is a copy of the requested list, no job
submitted yet. -/
def schedInit (requested : List Rectangle) : SchedulerState :=
  ⟨requested, requested, []⟩

/-- One turn of the while loop of process_rois: align the head of the
remaining working list, pop every remaining region contained in the
aligned read into a new job, and submit it; when the working list is empty
nothing changes; when the aligner raises, the loop aborts (the exception
propagates) without touching the requested list. -/
def schedStep (img : TiffImage) (s : SchedulerState) : SchedulerState :=
  match s.block_rois with
  | [] => s
  | r :: _ =>
    match get_block_aligned_read_roi img r with
    | .error _ => { s with block_rois := [] }
    | .ok read_roi =>
      { s with
        block_rois := s.block_rois.filter (fun x => ! read_roi.contains_rect x)
        jobs := s.jobs ++
          [(read_roi, s.block_rois.filter (fun x => read_roi.contains_rect x))] }

/-- C10: the grouping loop never modifies the requested list component.
After any number of loop turns starting from the loop entry state, the
requested_rois component still holds the same elements in the same order,
because every pop acts on the block_rois copy. -/
theorem c10_requested_rois_preserved (img : TiffImage) (rois : List Rectangle)
    (n : Nat) : ((schedStep img)^[n] (schedInit rois)).requested_rois = rois := by
  have hstep : ∀ s : SchedulerState,
      (schedStep img s).requested_rois = s.requested_rois := by
    intro s
    obtain ⟨req, brs, jbs⟩ := s
    cases brs with
    | nil => rfl
    | cons r rest =>
      show (match get_block_aligned_read_roi img r with
        | .error _ => _
        | .ok read_roi => _ : SchedulerState).requested_rois = req
      cases get_block_aligned_read_roi img r with
      | error e => rfl
      | ok read_roi => rfl
  induction n with
  | zero => rfl
  | succ k ih => rw [Function.iterate_succ_apply', hstep, ih]

/-- Geometry of a TiffWriter together with its handle state: output size,
tile size, and whether the gdal handle is still present (close sets the
handle to None, after which the write path fails when it touches it). -/
structure TiffWriter where
  width : Int
  height : Int
  tile_width : Int
  tile_height : Int
  handleOpen : Bool
deriving DecidableEq, Repr

/-- Python int(math.ceil(a / b)) on integers. -/
def pyceildiv (a b : Int) : Int := -(Int.fdiv (-a) b)

/-- TiffWriter.get_num_tiles: ceil of size over tile size per axis. -/
def get_num_tiles (w : TiffWriter) : Int × Int :=
  (pyceildiv w.width w.tile_width, pyceildiv w.height w.tile_height)

/-- TiffWriter.close: flush and drop the handle; the writer stays closed. -/
def close (w : TiffWriter) : TiffWriter :=
  { w with handleOpen := false }

/-- Error taxonomy for the writer, named per the spec; the first three map
to the three raise sites of write_block, the last to the failure of
touching the dropped handle after close. -/
inductive WriterError where
  | invalidTileIndex
  | tileOverflow
  | tileShapeMismatch
  | writerClosed
deriving DecidableEq, Repr

/-- The tail of write_block after validation: obtain the gdal band from
the handle (which fails when the writer was closed) and write the array at
pixel offset block position times tile size per axis. -/
def writeThroughHandle (w : TiffWriter) (block_x block_y : Int) :
    Except WriterError (Int × Int) :=
  if w.handleOpen then .ok (block_x * w.tile_width, block_y * w.tile_height)
  else .error .writerClosed

/-- TiffWriter.write_block for a data block of spatial shape
(shape0, shape1): reject block positions outside the tile grid; for an
edge block the offset-adjusted extent must fit inside the image size, for
an interior block the shape must equal the tile size exactly; then write
through the handle. -/
def write_block (w : TiffWriter) (shape0 shape1 block_x block_y : Int) :
    Except WriterError (Int × Int) :=
  if block_x ≥ (get_num_tiles w).1 ∨ block_y ≥ (get_num_tiles w).2 then
    .error .invalidTileIndex
  else if block_x = (get_num_tiles w).1 - 1 ∨ block_y = (get_num_tiles w).2 - 1 then
    if block_x * w.tile_width + shape0 > w.width ∨
        block_y * w.tile_height + shape1 > w.height then
      .error .tileOverflow
    else writeThroughHandle w block_x block_y
  else if shape0 ≠ w.tile_width ∨ shape1 ≠ w.tile_height then
    .error .tileShapeMismatch
  else writeThroughHandle w block_x block_y

/-- C3: classification of every write_block call on an open writer: an
out-of-grid block position fails with the invalid-tile-index error; an
in-grid edge block fails with the tile-overflow error exactly when its
offset-adjusted extent exceeds the image size and otherwise writes at
pixel offset (block_x times tile width, block_y times tile height); an
in-grid interior block fails with the tile-shape-mismatch error exactly
when its shape differs from the tile size and otherwise writes at the same
offset. -/
theorem c3_write_block_validation (w : TiffWriter)
    (shape0 shape1 block_x block_y : Int) (hopen : w.handleOpen = true) :
    (block_x ≥ (get_num_tiles w).1 ∨ block_y ≥ (get_num_tiles w).2 →
      write_block w shape0 shape1 block_x block_y = .error .invalidTileIndex) ∧
    (block_x < (get_num_tiles w).1 → block_y < (get_num_tiles w).2 →
      (block_x = (get_num_tiles w).1 - 1 ∨ block_y = (get_num_tiles w).2 - 1) →
      ((block_x * w.tile_width + shape0 > w.width ∨
          block_y * w.tile_height + shape1 > w.height) →
        write_block w shape0 shape1 block_x block_y = .error .tileOverflow) ∧
      (block_x * w.tile_width + shape0 ≤ w.width →
        block_y * w.tile_height + shape1 ≤ w.height →
        write_block w shape0 shape1 block_x block_y =
          .ok (block_x * w.tile_width, block_y * w.tile_height))) ∧
    (block_x < (get_num_tiles w).1 → block_y < (get_num_tiles w).2 →
      ¬(block_x = (get_num_tiles w).1 - 1 ∨ block_y = (get_num_tiles w).2 - 1) →
      ((shape0 ≠ w.tile_width ∨ shape1 ≠ w.tile_height) →
        write_block w shape0 shape1 block_x block_y = .error .tileShapeMismatch) ∧
      (shape0 = w.tile_width → shape1 = w.tile_height →
        write_block w shape0 shape1 block_x block_y =
          .ok (block_x * w.tile_width, block_y * w.tile_height))) := by
  refine ⟨?_, ?_, ?_⟩
  · intro hout
    rw [write_block, if_pos hout]
  · intro hx hy hedge
    constructor
    · intro hover
      rw [write_block, if_neg (by omega), if_pos hedge, if_pos hover]
    · intro ho1 ho2
      rw [write_block, if_neg (by omega), if_pos hedge, if_neg (by omega),
        writeThroughHandle, if_pos hopen]
  · intro hx hy hedge
    constructor
    · intro hmis
      rw [write_block, if_neg (by omega), if_neg hedge, if_pos hmis]
    · intro hs0 hs1
      rw [write_block, if_neg (by omega), if_neg hedge,
        if_neg (by rw [hs0, hs1]; simp), writeThroughHandle, if_pos hopen]

/-- Witness for C3 at the edge-tile scenario of the spec: a 10 by 10
output with 4 by 4 tiles has a 3 by 3 tile grid; writing a 2 by 2 block at
grid position (2,2) succeeds at pixel offset (8,8), writing a 4 by 4 block
there overflows, and writing a 3 by 3 block at the interior position (0,0)
mismatches the tile shape. -/
theorem c3_write_block_validation_witness :
    (⟨10, 10, 4, 4, true⟩ : TiffWriter).handleOpen = true ∧
    write_block ⟨10, 10, 4, 4, true⟩ 2 2 2 2 = .ok (8, 8) ∧
    write_block ⟨10, 10, 4, 4, true⟩ 4 4 2 2 = .error .tileOverflow ∧
    write_block ⟨10, 10, 4, 4, true⟩ 3 3 0 0 = .error .tileShapeMismatch :=
  ⟨rfl,
    by
      have h := ((c3_write_block_validation ⟨10, 10, 4, 4, true⟩ 2 2 2 2 rfl).2.1
        (by decide) (by decide) (by decide)).2 (by decide) (by decide)
      rw [h]
      rfl,
    by
      have h := ((c3_write_block_validation ⟨10, 10, 4, 4, true⟩ 4 4 2 2 rfl).2.1
        (by decide) (by decide) (by decide)).1 (by decide)
      rw [h],
    by
      have h := ((c3_write_block_validation ⟨10, 10, 4, 4, true⟩ 3 3 0 0 rfl).2.2
        (by decide) (by decide) (by decide)).1 (by decide)
      rw [h]⟩

/-- The minimum size threshold for a tiled physical layout. -/
def MIN_SIZE_FOR_TILES : Int := 100

/-- Whether TiffWriter construction adds the tiled layout creation option:
the source enables it when the width or the height exceeds the threshold. -/
def tiledOptionEnabled (width height : Int) : Bool :=
  decide (width > MIN_SIZE_FOR_TILES) || decide (height > MIN_SIZE_FOR_TILES)

/-- Counterexample to C4: an output of width 200 and height 50 enables the
tiled layout although its height does not exceed the threshold, so the
tiled option is not equivalent to both dimensions exceeding 100. -/
theorem c4_tiled_option_counterexample :
    tiledOptionEnabled 200 50 = true ∧
    ¬((200 : Int) > MIN_SIZE_FOR_TILES ∧ (50 : Int) > MIN_SIZE_FOR_TILES) := by
  constructor
  · rfl
  · intro h
    exact absurd h.2 (by decide)

/-- C4 as amended: the tiled layout option is enabled if and only if the
output width exceeds 100 or the output height exceeds 100 (either
dimension suffices). -/
theorem c4_tiled_option_amended (width height : Int) :
    tiledOptionEnabled width height = true ↔
      width > MIN_SIZE_FOR_TILES ∨ height > MIN_SIZE_FOR_TILES := by
  simp [tiledOptionEnabled]

/-- The write_block arguments that pass all three geometry validations:
the block position is inside the tile grid, an edge block fits inside the
image size, and an interior block matches the tile shape exactly. -/
def passesGeometryChecks (w : TiffWriter) (shape0 shape1 block_x block_y : Int) :
    Prop :=
  (block_x < (get_num_tiles w).1 ∧ block_y < (get_num_tiles w).2) ∧
  ((block_x = (get_num_tiles w).1 - 1 ∨ block_y = (get_num_tiles w).2 - 1) →
    block_x * w.tile_width + shape0 ≤ w.width ∧
    block_y * w.tile_height + shape1 ≤ w.height) ∧
  (¬(block_x = (get_num_tiles w).1 - 1 ∨ block_y = (get_num_tiles w).2 - 1) →
    shape0 = w.tile_width ∧ shape1 = w.tile_height)

instance decidablePassesGeometryChecks (w : TiffWriter)
    (shape0 shape1 block_x block_y : Int) :
    Decidable (passesGeometryChecks w shape0 shape1 block_x block_y) := by
  unfold passesGeometryChecks
  infer_instance

/-- Counterexample to C8: on a closed 10 by 10 writer with 4 by 4 tiles, a
write at the out-of-grid block position (5,0) fails with the
invalid-tile-index error, which is raised by the geometry validation
before the dropped handle is touched, not with the writer-closed error. -/
theorem c8_writer_closed_counterexample :
    write_block (close ⟨10, 10, 4, 4, true⟩) 4 4 5 0 = .error .invalidTileIndex ∧
    (Except.error WriterError.invalidTileIndex : Except WriterError (Int × Int)) ≠
      .error .writerClosed := by
  constructor
  · rfl
  · intro h
    injection h with h2
    exact absurd h2 (by decide)

/-- C8 as amended: after close the writer state is terminally closed and
no subsequent write_block call ever succeeds or reaches the output; a call
whose arguments pass the tile-geometry validation fails with the
writer-closed error, while a geometry-invalid call fails with its
validation error, raised before the handle is touched. -/
theorem c8_closed_terminal (w : TiffWriter) :
    (close w).handleOpen = false ∧
    close (close w) = close w ∧
    (∀ shape0 shape1 block_x block_y : Int, ∀ p : Int × Int,
      write_block (close w) shape0 shape1 block_x block_y ≠ .ok p) ∧
    (∀ shape0 shape1 block_x block_y : Int,
      passesGeometryChecks (close w) shape0 shape1 block_x block_y →
      write_block (close w) shape0 shape1 block_x block_y =
        .error .writerClosed) := by
  refine ⟨rfl, rfl, ?_, ?_⟩
  · intro shape0 shape1 block_x block_y p
    unfold write_block writeThroughHandle
    split_ifs with h1 h2 h3 h4 h5 h6 <;> simp_all [close]
  · intro shape0 shape1 block_x block_y hgeo
    obtain ⟨⟨hx, hy⟩, hedge, hint⟩ := hgeo
    by_cases he : block_x = (get_num_tiles (close w)).1 - 1 ∨
        block_y = (get_num_tiles (close w)).2 - 1
    · obtain ⟨ho1, ho2⟩ := hedge he
      rw [write_block, if_neg (by omega), if_pos he, if_neg (by omega),
        writeThroughHandle, if_neg (by simp [close])]
    · obtain ⟨hs0, hs1⟩ := hint he
      rw [write_block, if_neg (by omega), if_neg he,
        if_neg (by rw [hs0, hs1]; simp), writeThroughHandle,
        if_neg (by simp [close])]

/-- Witness for C8 as amended: on the closed 10 by 10 writer with 4 by 4
tiles, the geometry-valid write of a 2 by 2 block at edge position (2,2)
fails with the writer-closed error. -/
theorem c8_closed_terminal_witness :
    passesGeometryChecks (close ⟨10, 10, 4, 4, true⟩) 2 2 2 2 ∧
    write_block (close ⟨10, 10, 4, 4, true⟩) 2 2 2 2 = .error .writerClosed :=
  ⟨by decide,
    (c8_closed_terminal ⟨10, 10, 4, 4, true⟩).2.2.2 2 2 2 2 (by decide)⟩

/-- Shape of a numpy buffer as passed to the band read loop: band planes
first, then the two spatial axes (the Python buffer is indexed
buf[i, :, :] per band). -/
structure NpBuffer where
  bands : Nat
  s0 : Int
  s1 : Int
deriving DecidableEq, Repr

/-- The band loop of the tiff read path: for the i-th requested band, look
the band up in the band map (failing past its end), slice the i-th buffer
plane (failing past the band axis), check the plane spatial shape against
the region, and read the band into the plane. -/
def readLoop (img : TiffImage) (roi : Rectangle) (b : NpBuffer) :
    Nat → List Nat → Except TiffError Unit
  | _, [] => .ok ()
  | i, band :: rest =>
    if img.num_bands ≤ band then .error .indexError
    else if b.bands ≤ i then .error .indexError
    else if (b.s0, b.s1) ≠ (roi.width, roi.height) then .error .bufferShape
    else readLoop img roi b (i + 1) rest

/-- TiffImage._read: assert the image is open, allocate a zero buffer of
shape (num_bands, width, height) of the region when the caller supplied
none, run the band loop, and return the transposed array, whose shape is
(spatial 0, spatial 1, buffer band count). -/
def _read (img : TiffImage) (roi : Rectangle) (bands : List Nat)
    (buf : Option NpBuffer) : Except TiffError (Int × Int × Nat) :=
  if img.isOpen then
    match readLoop img roi (buf.getD ⟨img.num_bands, roi.width, roi.height⟩) 0 bands with
    | .error e => .error e
    | .ok _ =>
      .ok ((buf.getD ⟨img.num_bands, roi.width, roi.height⟩).s0,
        (buf.getD ⟨img.num_bands, roi.width, roi.height⟩).s1,
        (buf.getD ⟨img.num_bands, roi.width, roi.height⟩).bands)
  else .error .closedSource

/-- Modelled from the spec: the read wrapper of the DeltaImage base class
(basic_sources is not among the provided sources); per section 4.2 it
fails with the out-of-bounds error when the region is not contained in
the full extent of the source and otherwise delegates to the tiff read. -/
def DeltaImage_read (img : TiffImage) (roi : Rectangle) (bands : List Nat)
    (buf : Option NpBuffer) : Except TiffError (Int × Int × Nat) :=
  if (imageBounds img).contains_rect roi then _read img roi bands buf
  else .error .outOfBounds

theorem readLoop_ok (img : TiffImage) (roi : Rectangle) (b : NpBuffer) :
    ∀ (bands : List Nat) (i : Nat),
      (∀ band ∈ bands, band < img.num_bands) →
      i + bands.length ≤ b.bands →
      (b.s0, b.s1) = (roi.width, roi.height) →
      readLoop img roi b i bands = .ok () := by
  intro bands
  induction bands with
  | nil => intro i _ _ _; rfl
  | cons band rest ih =>
    intro i hb hlen hsh
    have hband : band < img.num_bands := hb band (by simp)
    rw [readLoop, if_neg (by omega), if_neg (by simp at hlen; omega), if_neg (by simp [hsh])]
    exact ih (i + 1) (fun x hx => hb x (by simp [hx])) (by simp at hlen ⊢; omega) hsh

theorem readLoop_mismatch (img : TiffImage) (roi : Rectangle) (b : NpBuffer)
    (band : Nat) (rest : List Nat) (hband : band < img.num_bands)
    (hib : 0 < b.bands) (hmis : (b.s0, b.s1) ≠ (roi.width, roi.height)) :
    readLoop img roi b 0 (band :: rest) = .error .bufferShape := by
  rw [readLoop, if_neg (by omega), if_neg (by omega), if_pos hmis]

/-- Counterexample to C7: reading one band of a two-band open image with
no caller buffer allocates the buffer over all image bands, so the
returned shape has band dimension two, not the length one of the
requested band list. -/
theorem c7_read_counterexample :
    DeltaImage_read ⟨10, 10, 16, 16, 2, true⟩ ⟨0, 0, 5, 5⟩ [0] none =
      .ok (5, 5, 2) ∧
    DeltaImage_read ⟨10, 10, 16, 16, 2, true⟩ ⟨0, 0, 5, 5⟩ [0] none ≠
      .ok (5, 5, ([0] : List Nat).length) := by
  constructor
  · rfl
  · intro h
    have h1 : DeltaImage_read ⟨10, 10, 16, 16, 2, true⟩ ⟨0, 0, 5, 5⟩ [0] none =
        .ok ((5 : Int), (5 : Int), (2 : Nat)) := rfl
    rw [h1] at h
    injection h with h2
    simp at h2

/-- C7 as amended: for an open image, a band list of valid band indices
that fits the buffer band axis, read fails with the out-of-bounds error
when the region is not contained in the full extent; otherwise it returns
an array of spatial shape equal to the region width and height and band
dimension equal to the supplied buffer band count, or to the total image
band count when no buffer is supplied (this equals the length of the band
list only when the list covers every image band); it fails with the
buffer-shape error when the band list is nonempty and the supplied buffer
spatial shape mismatches the region. -/
theorem c7_read_amended (img : TiffImage) (roi : Rectangle) (bands : List Nat)
    (buf : Option NpBuffer) (ho : img.isOpen = true)
    (hb : ∀ band ∈ bands, band < img.num_bands)
    (hlen : bands.length ≤
      (match buf with | some b0 => b0.bands | none => img.num_bands)) :
    ((imageBounds img).contains_rect roi = false →
      DeltaImage_read img roi bands buf = .error .outOfBounds) ∧
    ((imageBounds img).contains_rect roi = true →
      (buf = none →
        DeltaImage_read img roi bands buf =
          .ok (roi.width, roi.height, img.num_bands)) ∧
      (∀ b0, buf = some b0 →
        ((b0.s0, b0.s1) = (roi.width, roi.height) →
          DeltaImage_read img roi bands buf = .ok (b0.s0, b0.s1, b0.bands)) ∧
        ((b0.s0, b0.s1) ≠ (roi.width, roi.height) → bands ≠ [] →
          DeltaImage_read img roi bands buf = .error .bufferShape))) := by
  constructor
  · intro hc
    simp [DeltaImage_read, hc]
  · intro hc
    constructor
    · intro hbuf
      subst hbuf
      have hloop := readLoop_ok img roi ⟨img.num_bands, roi.width, roi.height⟩
        bands 0 hb (by simpa using hlen) rfl
      simp [DeltaImage_read, hc, _read, ho, Option.getD, hloop]
    · intro b0 hbuf
      subst hbuf
      constructor
      · intro hsh
        have hloop := readLoop_ok img roi b0 bands 0 hb (by simpa using hlen) hsh
        simp [DeltaImage_read, hc, _read, ho, Option.getD, hloop]
      · intro hsh hne
        match bands, hne with
        | band :: rest, _ =>
          have hband : band < img.num_bands := hb band (by simp)
          have hib : 0 < b0.bands := by
            simp at hlen
            omega
          have hloop := readLoop_mismatch img roi b0 band rest hband hib hsh
          simp [DeltaImage_read, hc, _read, ho, Option.getD, hloop]

/-- Witness for C7 as amended: reading both bands of the two-band image
with no caller buffer returns the spatial shape of the region with band
dimension two. -/
theorem c7_read_amended_witness :
    (∀ band ∈ ([0, 1] : List Nat),
      band < (⟨10, 10, 16, 16, 2, true⟩ : TiffImage).num_bands) ∧
    DeltaImage_read ⟨10, 10, 16, 16, 2, true⟩ ⟨0, 0, 5, 5⟩ [0, 1] none =
      .ok (5, 5, 2) := by
  refine ⟨by decide, ?_⟩
  have h := ((c7_read_amended ⟨10, 10, 16, 16, 2, true⟩ ⟨0, 0, 5, 5⟩ [0, 1] none
    rfl (by decide) (by decide)).2 (by decide)).1 rfl
  rw [h]
  rfl
